import Mathlib

/-!
Verification of the real-time fan-out core of the AppChat backend.

The Rust source keeps three maps inside the `WebSocketServer` actor
(`sessions`, `users`, `rooms`) and mutates them in the actor handlers of
`src/modules/websocket/server.rs`.  We embed those maps as association
lists (`HashMap`) and membership lists (`HashSet`), and each actor handler
as a pure function from registry state (plus the event payload) to the new
state together with the list of outbound `(session_id, ServerMessage)`
deliveries performed via `do_send`.
-/

namespace AppChat

/-- Opaque 128-bit identifiers (`uuid::Uuid`) are embedded as naturals. -/
abbrev Uuid := Nat

/-- First-match lookup in an association list; embeds `HashMap::get`. -/
def lookup {β : Type} : List (Uuid × β) → Uuid → Option β
  | [], _ => none
  | (k, v) :: rest, key => if k = key then some v else lookup rest key

/-- Update the first entry with the given key, or append a fresh entry;
embeds `HashMap::insert` / the write-back of `HashMap::entry`. -/
def setKey {β : Type} : List (Uuid × β) → Uuid → β → List (Uuid × β)
  | [], key, v => [(key, v)]
  | (k, w) :: rest, key, v =>
      if k = key then (key, v) :: rest else (k, w) :: setKey rest key v

/-- Remove every entry with the given key; embeds `HashMap::remove`. -/
def removeKey {β : Type} (m : List (Uuid × β)) (key : Uuid) : List (Uuid × β) :=
  m.filter (fun p => p.1 != key)

/-- Idempotent insertion; embeds `HashSet::insert`. -/
def insertSet (s : List Uuid) (x : Uuid) : List Uuid :=
  if x ∈ s then s else x :: s

/-- Removal of an element; embeds `HashSet::remove`. -/
def removeElem (s : List Uuid) (x : Uuid) : List Uuid :=
  s.filter (fun y => y != x)

/-- Sender snapshot inside a last-message payload (`SenderInfo`,
referenced from `session.rs` and `message/service.rs`). -/
structure SenderInfo where
  sid : Uuid
  displayName : String
  avatarUrl : Option String
deriving DecidableEq

/-- Last-message enrichment attached to a new-message event
(`LastMessageInfo`, referenced from `session.rs` and `message/service.rs`). -/
structure LastMessageInfo where
  mid : Uuid
  content : Option String
  createdAt : String
  sender : SenderInfo
deriving DecidableEq

/-- Persisted message row (`MessageEntity` in `message/schema.rs`);
timestamps are embedded as their RFC 3339 strings. -/
structure MessageEntity where
  id : Uuid
  conversationId : Uuid
  senderId : Uuid
  replyToId : Option Uuid
  content : Option String
  fileUrl : Option String
  isEdited : Bool
  deletedAt : Option String
  createdAt : String
  updatedAt : String
deriving DecidableEq

/-- Server-to-client protocol frames (`ServerMessage` in
`websocket/message.rs`).  The `userOnline`, `userOffline` and the enriched
`newMessage` variants are referenced from `session.rs` and
`message/service.rs` but absent from the `message.rs` in src; they are
modelled from the spec wire-protocol section (`UserOnline{user_id}`,
`UserOffline{user_id, last_seen: optional string}`,
`NewMessage{conversation_id, message, ...enrichment fields}`). -/
inductive ServerMsg where
  | authSuccess (userId : Uuid)
  | authFailed (reason : String)
  | newMessage (message : MessageEntity) (conversationId : Uuid)
      (lastMessage : LastMessageInfo) (timestamp : String)
      (unreadCounts : List (Uuid × Int))
  | messageEdited (conversationId messageId : Uuid) (newContent : String)
  | messageDeleted (conversationId messageId : Uuid)
  | messagesRead (conversationId userId lastReadMessageId : Uuid)
  | onlineUsers (userIds : List Uuid)
  | userOnline (userId : Uuid)
  | userOffline (userId : Uuid) (lastSeen : Option String)
  | userTyping (conversationId userId : Uuid)
  | userStoppedTyping (conversationId userId : Uuid)
  | pong
  | error (message : String)
deriving DecidableEq

/-- Registry state of the Hub actor (`WebSocketServer` in
`websocket/server.rs`).  `sessions` holds the key set of the
`session_id -> Addr` map (the address values are the opaque delivery
handles, observable only through which session ids get deliveries). -/
structure WebSocketServer where
  sessions : List Uuid
  users : List (Uuid × List Uuid)
  rooms : List (Uuid × List Uuid)
deriving DecidableEq

/-- Empty registry (`WebSocketServer::new`). -/
def WebSocketServer.new : WebSocketServer :=
  { sessions := [], users := [], rooms := [] }

/-- An outbound delivery: target session id and the frame handed to its
session actor with `do_send`. -/
abbrev Outbound := Uuid × ServerMsg

/-- List of online user ids (`WebSocketServer::get_online_users`). -/
def getOnlineUsers (st : WebSocketServer) : List Uuid :=
  st.users.map Prod.fst

/-- Deliver the current online-users list to every connected session
(`WebSocketServer::broadcast_online_users`). -/
def broadcastOnlineUsers (st : WebSocketServer) : List Outbound :=
  st.sessions.map (fun sessionId => (sessionId, ServerMsg.onlineUsers (getOnlineUsers st)))

/-- Deliver one frame to one session if it is still registered
(`WebSocketServer::send_to_session`). -/
def sendToSession (st : WebSocketServer) (sessionId : Uuid) (msg : ServerMsg) : List Outbound :=
  if sessionId ∈ st.sessions then [(sessionId, msg)] else []

/-- Handler of the `Connect` event: register the session handle. -/
def handleConnect (st : WebSocketServer) (sid : Uuid) : WebSocketServer × List Outbound :=
  ({ st with sessions := insertSet st.sessions sid }, [])

/-- Scan of the `users` map inside the `Disconnect` handler: remove the
session from the first user found owning it (the Rust loop breaks there);
if that user has no session left, drop the entry and report the user id
(`user_to_remove`). -/
def removeSessionFromUsers :
    List (Uuid × List Uuid) → Uuid → List (Uuid × List Uuid) × Option Uuid
  | [], _ => ([], none)
  | (u, ss) :: rest, sid =>
      if sid ∈ ss then
        let ss' := removeElem ss sid
        if ss'.isEmpty then (rest, some u) else ((u, ss') :: rest, none)
      else
        let r := removeSessionFromUsers rest sid
        ((u, ss) :: r.1, r.2)

/-- Handler of the `Disconnect` event: drop the session, prune it from its
owner, and when the owner lost its last session, remove the user from all
rooms, clean up empty rooms and broadcast the refreshed online list. -/
def handleDisconnect (st : WebSocketServer) (sid : Uuid) : WebSocketServer × List Outbound :=
  let sessions' := removeElem st.sessions sid
  let r := removeSessionFromUsers st.users sid
  match r.2 with
  | none => ({ sessions := sessions', users := r.1, rooms := st.rooms }, [])
  | some uid =>
      let rooms' :=
        (st.rooms.map (fun p => (p.1, removeElem p.2 uid))).filter (fun p => !p.2.isEmpty)
      let st' : WebSocketServer := { sessions := sessions', users := r.1, rooms := rooms' }
      (st', broadcastOnlineUsers st')

/-- Handler of the `Authenticate` event: add the session to the session
set of the user (`users.entry(user_id).or_default()` followed by
`insert`), broadcasting the online list only when this was the first
session of the user. -/
def handleAuthenticate (st : WebSocketServer) (sid uid : Uuid) :
    WebSocketServer × List Outbound :=
  let ss := (lookup st.users uid).getD []
  let isNewUser := ss.isEmpty
  let st' : WebSocketServer := { st with users := setKey st.users uid (insertSet ss sid) }
  (st', if isNewUser then broadcastOnlineUsers st' else [])

/-- Handler of the `JoinRoom` event: add the user to the room set,
creating the room when absent. -/
def handleJoinRoom (st : WebSocketServer) (uid cid : Uuid) :
    WebSocketServer × List Outbound :=
  ({ st with rooms := setKey st.rooms cid (insertSet ((lookup st.rooms cid).getD []) uid) }, [])

/-- Handler of the `LeaveRoom` event: remove the user from the room set
and drop the room when it becomes empty. -/
def handleLeaveRoom (st : WebSocketServer) (uid cid : Uuid) :
    WebSocketServer × List Outbound :=
  match lookup st.rooms cid with
  | none => (st, [])
  | some us =>
      let us' := removeElem us uid
      if us'.isEmpty then ({ st with rooms := removeKey st.rooms cid }, [])
      else ({ st with rooms := setKey st.rooms cid us' }, [])

/-- The five registry-mutating Hub operations quantified over by the
invariant claims. -/
inductive HubOp where
  | connect (sid : Uuid)
  | disconnect (sid : Uuid)
  | authenticate (sid uid : Uuid)
  | joinRoom (uid cid : Uuid)
  | leaveRoom (uid cid : Uuid)
deriving DecidableEq

/-- Dispatch of one Hub operation to its handler. -/
def applyOp (st : WebSocketServer) : HubOp → WebSocketServer × List Outbound
  | HubOp.connect sid => handleConnect st sid
  | HubOp.disconnect sid => handleDisconnect st sid
  | HubOp.authenticate sid uid => handleAuthenticate st sid uid
  | HubOp.joinRoom uid cid => handleJoinRoom st uid cid
  | HubOp.leaveRoom uid cid => handleLeaveRoom st uid cid

/-- Run a sequence of Hub operations from a starting state. -/
def runOps (st : WebSocketServer) (ops : List HubOp) : WebSocketServer :=
  ops.foldl (fun s op => (applyOp s op).1) st

/-- Registry states reachable from the empty registry by Hub operations. -/
inductive Reachable : WebSocketServer → Prop where
  | empty : Reachable WebSocketServer.new
  | step (op : HubOp) {st : WebSocketServer} :
      Reachable st → Reachable (applyOp st op).1

/-- Every state produced by running operations from the empty registry is
reachable. -/
theorem reachable_runOps (ops : List HubOp) : Reachable (runOps WebSocketServer.new ops) := by
  suffices h : ∀ st, Reachable st → Reachable (runOps st ops) from
    h WebSocketServer.new Reachable.empty
  induction ops with
  | nil => intro st hst; exact hst
  | cons op rest ih =>
      intro st hst
      exact ih _ (Reachable.step op hst)

/-! ### Basic lemmas about the map and set embeddings -/

theorem insertSet_ne_nil (s : List Uuid) (x : Uuid) : insertSet s x ≠ [] := by
  by_cases hx : x ∈ s
  · simp only [insertSet, if_pos hx]
    intro hnil
    rw [hnil] at hx
    exact (List.not_mem_nil x) hx
  · simp [insertSet, hx]

theorem mem_setKey {β : Type} {m : List (Uuid × β)} {k : Uuid} {v : β} {p : Uuid × β}
    (hp : p ∈ setKey m k v) : p = (k, v) ∨ p ∈ m := by
  induction m with
  | nil => simpa [setKey] using hp
  | cons q rest ih =>
      by_cases hk : q.1 = k
      · rw [show q = (q.1, q.2) from rfl, setKey, if_pos hk] at hp
        rcases List.mem_cons.mp hp with h | h
        · exact Or.inl h
        · exact Or.inr (List.mem_cons_of_mem _ h)
      · rw [show q = (q.1, q.2) from rfl, setKey, if_neg hk] at hp
        rcases List.mem_cons.mp hp with h | h
        · exact Or.inr (by rw [h]; exact List.mem_cons_self _ _)
        · rcases ih h with h' | h'
          · exact Or.inl h'
          · exact Or.inr (List.mem_cons_of_mem _ h')

theorem lookup_mem {β : Type} {m : List (Uuid × β)} {k : Uuid} {v : β}
    (h : lookup m k = some v) : (k, v) ∈ m := by
  induction m with
  | nil => simp [lookup] at h
  | cons q rest ih =>
      by_cases hk : q.1 = k
      · rw [show q = (q.1, q.2) from rfl, lookup, if_pos hk] at h
        have hv : q.2 = v := Option.some.inj h
        have hq : q = (k, v) := by
          rw [show q = (q.1, q.2) from rfl, hk, hv]
        rw [hq]
        exact List.mem_cons_self _ _
      · rw [show q = (q.1, q.2) from rfl, lookup, if_neg hk] at h
        exact List.mem_cons_of_mem _ (ih h)

/-! ### C1 — the users and rooms maps never hold an empty set -/

/-- Entries surviving the `Disconnect` scan of `users` all come from the
original map, except the one updated entry which holds the filtered,
explicitly non-empty session set. -/
theorem removeSessionFromUsers_good {m : List (Uuid × List Uuid)} {sid : Uuid}
    (h : ∀ p ∈ m, p.2 ≠ []) : ∀ p ∈ (removeSessionFromUsers m sid).1, p.2 ≠ [] := by
  induction m with
  | nil =>
      intro p hp
      simp [removeSessionFromUsers] at hp
  | cons q rest ih =>
      have hrest : ∀ p ∈ rest, p.2 ≠ [] := fun p hp => h p (List.mem_cons_of_mem _ hp)
      by_cases hs : sid ∈ q.2
      · by_cases he : (removeElem q.2 sid).isEmpty
        · intro p hp
          rw [show q = (q.1, q.2) from rfl, removeSessionFromUsers] at hp
          simp only [if_pos hs, if_pos he] at hp
          exact hrest p hp
        · intro p hp
          rw [show q = (q.1, q.2) from rfl, removeSessionFromUsers] at hp
          simp only [if_pos hs, if_neg he] at hp
          rcases List.mem_cons.mp hp with hq | hq
          · rw [hq]
            intro hnil
            rw [List.isEmpty_iff] at he
            exact he hnil
          · exact hrest p hq
      · intro p hp
        rw [show q = (q.1, q.2) from rfl, removeSessionFromUsers] at hp
        simp only [if_neg hs] at hp
        rcases List.mem_cons.mp hp with hq | hq
        · rw [hq]; exact h q (List.mem_cons_self _ _)
        · exact ih hrest p hq

/-- C1: starting from the empty registry, after every sequence of Hub
operations (Connect, Disconnect, Authenticate, JoinRoom, LeaveRoom), a
user_id key exists in `users` iff its session set is non-empty, and a
conversation_id key exists in `rooms` iff its user set is non-empty.  The
non-trivial direction is that no entry of either map carries an empty
set (an entry that exists has, by construction, a key). -/
theorem C1_registry_nonempty_invariant (st : WebSocketServer) (h : Reachable st) :
    (∀ p ∈ st.users, p.2 ≠ []) ∧ (∀ p ∈ st.rooms, p.2 ≠ []) := by
  induction h with
  | empty => exact ⟨by simp [WebSocketServer.new], by simp [WebSocketServer.new]⟩
  | step op hst ih =>
      obtain ⟨hu, hr⟩ := ih
      rename_i st'
      cases op with
      | connect sid => exact ⟨hu, hr⟩
      | disconnect sid =>
          show (∀ p ∈ (handleDisconnect st' sid).1.users, p.2 ≠ []) ∧
            (∀ p ∈ (handleDisconnect st' sid).1.rooms, p.2 ≠ [])
          unfold handleDisconnect
          cases hrm : (removeSessionFromUsers st'.users sid).2 with
          | none =>
              simp only [hrm]
              exact ⟨removeSessionFromUsers_good hu, hr⟩
          | some uid =>
              simp only [hrm]
              refine ⟨removeSessionFromUsers_good hu, ?_⟩
              intro p hp
              rw [List.mem_filter] at hp
              intro hnil
              rw [← List.isEmpty_iff] at hnil
              rw [hnil] at hp
              simp at hp
      | authenticate sid uid =>
          refine ⟨?_, hr⟩
          intro p hp
          show p.2 ≠ []
          have hp' : p ∈ setKey st'.users uid
              (insertSet ((lookup st'.users uid).getD []) sid) := hp
          rcases mem_setKey hp' with hq | hq
          · rw [hq]; exact insertSet_ne_nil _ _
          · exact hu p hq
      | joinRoom uid cid =>
          refine ⟨hu, ?_⟩
          intro p hp
          have hp' : p ∈ setKey st'.rooms cid
              (insertSet ((lookup st'.rooms cid).getD []) uid) := hp
          rcases mem_setKey hp' with hq | hq
          · rw [hq]; exact insertSet_ne_nil _ _
          · exact hr p hq
      | leaveRoom uid cid =>
          show (∀ p ∈ (handleLeaveRoom st' uid cid).1.users, p.2 ≠ []) ∧
            (∀ p ∈ (handleLeaveRoom st' uid cid).1.rooms, p.2 ≠ [])
          unfold handleLeaveRoom
          cases hl : lookup st'.rooms cid with
          | none => exact ⟨hu, hr⟩
          | some us =>
              by_cases he : (removeElem us uid).isEmpty
              · simp only [if_pos he]
                refine ⟨hu, ?_⟩
                intro p hp
                rw [removeKey, List.mem_filter] at hp
                exact hr p hp.1
              · simp only [if_neg he]
                refine ⟨hu, ?_⟩
                intro p hp
                rcases mem_setKey hp with hq | hq
                · rw [hq]
                  intro hnil
                  rw [List.isEmpty_iff] at he
                  exact he hnil
                · exact hr p hq

/-- C1 witness: the invariant evaluated on a concrete reachable state. -/
theorem C1_registry_nonempty_invariant_witness :
    (∀ p ∈ (runOps WebSocketServer.new
        [HubOp.connect 10, HubOp.authenticate 10 1, HubOp.joinRoom 1 7,
         HubOp.connect 11, HubOp.authenticate 11 1, HubOp.disconnect 10]).users, p.2 ≠ []) ∧
    (∀ p ∈ (runOps WebSocketServer.new
        [HubOp.connect 10, HubOp.authenticate 10 1, HubOp.joinRoom 1 7,
         HubOp.connect 11, HubOp.authenticate 11 1, HubOp.disconnect 10]).rooms, p.2 ≠ []) :=
  C1_registry_nonempty_invariant _ (reachable_runOps _)

/-! ### More lemmas about the embeddings -/

theorem mem_insertSet_iff (s : List Uuid) (x y : Uuid) :
    y ∈ insertSet s x ↔ y = x ∨ y ∈ s := by
  by_cases hx : x ∈ s
  · simp only [insertSet, if_pos hx]
    constructor
    · intro h; exact Or.inr h
    · intro h
      rcases h with h | h
      · rw [h]; exact hx
      · exact h
  · simp only [insertSet, if_neg hx]
    exact List.mem_cons

theorem mem_removeElem {s : List Uuid} {x y : Uuid} (h : y ∈ removeElem s x) :
    y ∈ s ∧ y ≠ x := by
  rw [removeElem, List.mem_filter] at h
  exact ⟨h.1, by simpa [bne_iff_ne] using h.2⟩

theorem mem_removeElem_of {s : List Uuid} {x y : Uuid} (h : y ∈ s) (hne : y ≠ x) :
    y ∈ removeElem s x := by
  rw [removeElem, List.mem_filter]
  exact ⟨h, by simpa [bne_iff_ne] using hne⟩

theorem lookup_eq_none_iff {β : Type} (m : List (Uuid × β)) (k : Uuid) :
    lookup m k = none ↔ k ∉ m.map Prod.fst := by
  induction m with
  | nil => simp [lookup]
  | cons q rest ih =>
      by_cases hk : q.1 = k
      · rw [show q = (q.1, q.2) from rfl, lookup]
        simp [if_pos hk, hk]
      · rw [show q = (q.1, q.2) from rfl, lookup]
        simp only [if_neg hk, List.map_cons, List.mem_cons, ih]
        constructor
        · intro h hc
          rcases hc with hc | hc
          · exact hk hc.symm
          · exact h hc
        · intro h hc
          exact h (Or.inr hc)

theorem setKey_keys {β : Type} (m : List (Uuid × β)) (k : Uuid) (v : β) :
    (setKey m k v).map Prod.fst =
      if k ∈ m.map Prod.fst then m.map Prod.fst else m.map Prod.fst ++ [k] := by
  induction m with
  | nil => simp [setKey]
  | cons q rest ih =>
      by_cases hk : q.1 = k
      · rw [show q = (q.1, q.2) from rfl, setKey]
        simp [if_pos hk, hk]
      · rw [show q = (q.1, q.2) from rfl, setKey]
        simp only [if_neg hk, List.map_cons, ih]
        by_cases hmem : k ∈ rest.map Prod.fst
        · simp [hmem, Ne.symm hk]
        · simp [hmem, Ne.symm hk]

/-! ### C3 — the stated invariant fails: Authenticate does not require Connect -/

/-- Counterexample to C3 as stated: from the empty registry the single
operation `Authenticate(session 5, user 1)` is a reachable step, yet it
records session 5 under user 1 while the `sessions` map stays empty — the
entry is created regardless of whether the session exists. -/
theorem C3_counterexample :
    Reachable (runOps WebSocketServer.new [HubOp.authenticate 5 1]) ∧
    (∃ ss, (1, ss) ∈ (runOps WebSocketServer.new [HubOp.authenticate 5 1]).users ∧ 5 ∈ ss) ∧
    5 ∉ (runOps WebSocketServer.new [HubOp.authenticate 5 1]).sessions :=
  ⟨reachable_runOps _, ⟨[5], by decide, by decide⟩, by decide⟩

/-- Registry states reachable from the empty registry when the operation
stream respects the session-actor discipline: a session only
authenticates while it is registered in `sessions`, and a session id is
never bound to a second, different user id. -/
inductive WFReachable : WebSocketServer → Prop where
  | empty : WFReachable WebSocketServer.new
  | connect (sid : Uuid) {st : WebSocketServer} :
      WFReachable st → WFReachable (handleConnect st sid).1
  | disconnect (sid : Uuid) {st : WebSocketServer} :
      WFReachable st → WFReachable (handleDisconnect st sid).1
  | authenticate (sid uid : Uuid) {st : WebSocketServer} :
      WFReachable st →
      sid ∈ st.sessions →
      (∀ u ss, (u, ss) ∈ st.users → sid ∈ ss → u = uid) →
      WFReachable (handleAuthenticate st sid uid).1
  | joinRoom (uid cid : Uuid) {st : WebSocketServer} :
      WFReachable st → WFReachable (handleJoinRoom st uid cid).1
  | leaveRoom (uid cid : Uuid) {st : WebSocketServer} :
      WFReachable st → WFReachable (handleLeaveRoom st uid cid).1

theorem handleDisconnect_users (st : WebSocketServer) (sid : Uuid) :
    (handleDisconnect st sid).1.users = (removeSessionFromUsers st.users sid).1 := by
  unfold handleDisconnect
  cases hrm : (removeSessionFromUsers st.users sid).2 <;> simp [hrm]

theorem handleDisconnect_sessions (st : WebSocketServer) (sid : Uuid) :
    (handleDisconnect st sid).1.sessions = removeElem st.sessions sid := by
  unfold handleDisconnect
  cases hrm : (removeSessionFromUsers st.users sid).2 <;> simp [hrm]

theorem handleLeaveRoom_users (st : WebSocketServer) (uid cid : Uuid) :
    (handleLeaveRoom st uid cid).1.users = st.users := by
  unfold handleLeaveRoom
  cases lookup st.rooms cid with
  | none => rfl
  | some us => by_cases he : (removeElem us uid).isEmpty <;> simp [he]

theorem handleLeaveRoom_sessions (st : WebSocketServer) (uid cid : Uuid) :
    (handleLeaveRoom st uid cid).1.sessions = st.sessions := by
  unfold handleLeaveRoom
  cases lookup st.rooms cid with
  | none => rfl
  | some us => by_cases he : (removeElem us uid).isEmpty <;> simp [he]

theorem removeSessionFromUsers_keys_sublist (m : List (Uuid × List Uuid)) (sid : Uuid) :
    ((removeSessionFromUsers m sid).1.map Prod.fst).Sublist (m.map Prod.fst) := by
  induction m with
  | nil => simp [removeSessionFromUsers]
  | cons q rest ih =>
      by_cases hs : sid ∈ q.2
      · by_cases he : (removeElem q.2 sid).isEmpty
        · rw [show q = (q.1, q.2) from rfl, removeSessionFromUsers]
          simp only [if_pos hs, if_pos he, List.map_cons]
          exact (List.Sublist.refl _).cons _
        · rw [show q = (q.1, q.2) from rfl, removeSessionFromUsers]
          simp only [if_pos hs, if_neg he, List.map_cons]
          exact (List.Sublist.refl _).cons₂ _
      · rw [show q = (q.1, q.2) from rfl, removeSessionFromUsers]
        simp only [if_neg hs, List.map_cons]
        exact ih.cons₂ _

/-- Every entry that survives the `Disconnect` scan of `users` descends
from an original entry with the same key and a superset session set. -/
theorem removeSessionFromUsers_subset (m : List (Uuid × List Uuid)) (sid : Uuid) :
    ∀ p ∈ (removeSessionFromUsers m sid).1,
      ∃ ss₀, (p.1, ss₀) ∈ m ∧ ∀ x ∈ p.2, x ∈ ss₀ := by
  induction m with
  | nil => intro p hp; simp [removeSessionFromUsers] at hp
  | cons q rest ih =>
      have hlift : ∀ p ∈ rest, ∃ ss₀, (p.1, ss₀) ∈ q :: rest ∧ ∀ x ∈ p.2, x ∈ ss₀ :=
        fun p hp => ⟨p.2, List.mem_cons_of_mem _ hp, fun _ hx => hx⟩
      by_cases hs : sid ∈ q.2
      · by_cases he : (removeElem q.2 sid).isEmpty
        · intro p hp
          rw [show q = (q.1, q.2) from rfl, removeSessionFromUsers] at hp
          simp only [if_pos hs, if_pos he] at hp
          exact hlift p hp
        · intro p hp
          rw [show q = (q.1, q.2) from rfl, removeSessionFromUsers] at hp
          simp only [if_pos hs, if_neg he] at hp
          rcases List.mem_cons.mp hp with hq | hq
          · refine ⟨q.2, ?_, ?_⟩
            · rw [hq]; exact List.mem_cons_self _ _
            · intro x hx
              rw [hq] at hx
              exact (mem_removeElem hx).1
          · exact hlift p hq
      · intro p hp
        rw [show q = (q.1, q.2) from rfl, removeSessionFromUsers] at hp
        simp only [if_neg hs] at hp
        rcases List.mem_cons.mp hp with hq | hq
        · exact ⟨p.2, by rw [hq]; exact List.mem_cons_self _ _, fun _ hx => hx⟩
        · obtain ⟨ss₀, hmem, hsub⟩ := ih p hq
          exact ⟨ss₀, List.mem_cons_of_mem _ hmem, hsub⟩

/-- When the session sets of distinct users are disjoint and keys are
unique, the `Disconnect` scan eliminates the session everywhere. -/
theorem removeSessionFromUsers_no_sid {m : List (Uuid × List Uuid)} {sid : Uuid}
    (hnd : (m.map Prod.fst).Nodup)
    (huniq : ∀ u1 ss1 u2 ss2, (u1, ss1) ∈ m → (u2, ss2) ∈ m → sid ∈ ss1 → sid ∈ ss2 → u1 = u2) :
    ∀ p ∈ (removeSessionFromUsers m sid).1, sid ∉ p.2 := by
  induction m with
  | nil => intro p hp; simp [removeSessionFromUsers] at hp
  | cons q rest ih =>
      have hnd' := hnd
      rw [List.map_cons, List.nodup_cons] at hnd'
      have hkey : q.1 ∉ rest.map Prod.fst := hnd'.1
      have hndr : (rest.map Prod.fst).Nodup := hnd'.2
      have huniqr : ∀ u1 ss1 u2 ss2, (u1, ss1) ∈ rest → (u2, ss2) ∈ rest →
          sid ∈ ss1 → sid ∈ ss2 → u1 = u2 :=
        fun u1 ss1 u2 ss2 h1 h2 => huniq u1 ss1 u2 ss2
          (List.mem_cons_of_mem _ h1) (List.mem_cons_of_mem _ h2)
      by_cases hs : sid ∈ q.2
      · have hrest : ∀ p ∈ rest, sid ∉ p.2 := by
          intro p hp hsp
          have hqp : q.1 = p.1 := by
            have hq : q = (q.1, q.2) := rfl
            have hpp : p = (p.1, p.2) := rfl
            exact huniq q.1 q.2 p.1 p.2 (hq ▸ List.mem_cons_self _ _)
              (List.mem_cons_of_mem _ (hpp ▸ hp)) hs hsp
          apply hkey
          rw [hqp]
          exact List.mem_map_of_mem Prod.fst hp
        by_cases he : (removeElem q.2 sid).isEmpty
        · intro p hp
          rw [show q = (q.1, q.2) from rfl, removeSessionFromUsers] at hp
          simp only [if_pos hs, if_pos he] at hp
          exact hrest p hp
        · intro p hp
          rw [show q = (q.1, q.2) from rfl, removeSessionFromUsers] at hp
          simp only [if_pos hs, if_neg he] at hp
          rcases List.mem_cons.mp hp with hq | hq
          · rw [hq]
            intro hsx
            exact (mem_removeElem hsx).2 rfl
          · exact hrest p hq
      · intro p hp
        rw [show q = (q.1, q.2) from rfl, removeSessionFromUsers] at hp
        simp only [if_neg hs] at hp
        rcases List.mem_cons.mp hp with hq | hq
        · rw [hq]; exact hs
        · exact ih hndr huniqr p hq

/-- Structural well-formedness maintained by the session-actor
discipline: user keys are unique, every recorded session is registered,
and no session is recorded under two different users. -/
theorem registryWF_of_wfReachable (st : WebSocketServer) (h : WFReachable st) :
    (st.users.map Prod.fst).Nodup ∧
    (∀ u ss s, (u, ss) ∈ st.users → s ∈ ss → s ∈ st.sessions) ∧
    (∀ u1 ss1 u2 ss2 s, (u1, ss1) ∈ st.users → (u2, ss2) ∈ st.users →
      s ∈ ss1 → s ∈ ss2 → u1 = u2) := by
  induction h with
  | empty =>
      refine ⟨by simp [WebSocketServer.new], ?_, ?_⟩
      · intro u ss s hmem
        simp [WebSocketServer.new] at hmem
      · intro u1 ss1 u2 ss2 s hmem
        simp [WebSocketServer.new] at hmem
  | connect sid hst ih =>
      obtain ⟨hnd, hsub, huniq⟩ := ih
      refine ⟨hnd, ?_, huniq⟩
      intro u ss s hmem hs
      exact (mem_insertSet_iff _ _ _).mpr (Or.inr (hsub u ss s hmem hs))
  | disconnect sid hst ih =>
      rename_i st'
      obtain ⟨hnd, hsub, huniq⟩ := ih
      rw [handleDisconnect_users, handleDisconnect_sessions]
      refine ⟨?_, ?_, ?_⟩
      · exact (removeSessionFromUsers_keys_sublist st'.users sid).nodup hnd
      · intro u ss s hmem hs
        obtain ⟨ss₀, hmem₀, hsub₀⟩ := removeSessionFromUsers_subset st'.users sid (u, ss) hmem
        have hne : sid ∉ ss :=
          removeSessionFromUsers_no_sid hnd
            (fun u1 ss1 u2 ss2 h1 h2 hs1 hs2 => huniq u1 ss1 u2 ss2 sid h1 h2 hs1 hs2)
            (u, ss) hmem
        refine mem_removeElem_of (hsub u ss₀ s hmem₀ (hsub₀ s hs)) ?_
        intro hcon
        rw [hcon] at hs
        exact hne hs
      · intro u1 ss1 u2 ss2 s h1 h2 hs1 hs2
        obtain ⟨t1, hm1, hb1⟩ := removeSessionFromUsers_subset st'.users sid (u1, ss1) h1
        obtain ⟨t2, hm2, hb2⟩ := removeSessionFromUsers_subset st'.users sid (u2, ss2) h2
        exact huniq u1 t1 u2 t2 s hm1 hm2 (hb1 s hs1) (hb2 s hs2)
  | authenticate sid uid hst hsid hop ih =>
      rename_i st'
      obtain ⟨hnd, hsub, huniq⟩ := ih
      have hlkmem : ∀ s, s ∈ (lookup st'.users uid).getD [] →
          (uid, (lookup st'.users uid).getD []) ∈ st'.users := by
        intro s hs
        cases hlk : lookup st'.users uid with
        | none => rw [hlk] at hs; simp at hs
        | some ss₀ => simpa using lookup_mem hlk
      refine ⟨?_, ?_, ?_⟩
      · show ((setKey st'.users uid _).map Prod.fst).Nodup
        rw [setKey_keys]
        by_cases hmem : uid ∈ st'.users.map Prod.fst
        · simpa [hmem] using hnd
        · simp only [if_neg hmem]
          rw [List.nodup_append]
          refine ⟨hnd, List.nodup_singleton _, ?_⟩
          intro a ha hb
          rw [List.mem_singleton] at hb
          rw [hb] at ha
          exact hmem ha
      · intro u ss s hmem hs
        rcases mem_setKey hmem with hq | hq
        · have hss : ss = insertSet ((lookup st'.users uid).getD []) sid :=
            congrArg Prod.snd hq
          rw [hss] at hs
          rcases (mem_insertSet_iff _ _ _).mp hs with rfl | hs'
          · exact hsid
          · exact hsub uid _ s (hlkmem s hs') hs'
        · exact hsub u ss s hq hs
      · intro u1 ss1 u2 ss2 s h1 h2 hs1 hs2
        have hkey : ∀ u ss, (u, ss) ∈ setKey st'.users uid
            (insertSet ((lookup st'.users uid).getD []) sid) → s ∈ ss →
            (u = uid ∧ (s = sid ∨ s ∈ (lookup st'.users uid).getD [])) ∨
            ((u, ss) ∈ st'.users ∧ s ∈ ss) := by
          intro u ss hmem hs
          rcases mem_setKey hmem with hq | hq
          · left
            refine ⟨congrArg Prod.fst hq, ?_⟩
            have hss : ss = insertSet ((lookup st'.users uid).getD []) sid :=
              congrArg Prod.snd hq
            rw [hss] at hs
            exact (mem_insertSet_iff _ _ _).mp hs
          · right; exact ⟨hq, hs⟩
        rcases hkey u1 ss1 h1 hs1 with ⟨he1, hc1⟩ | ⟨hm1, _⟩ <;>
          rcases hkey u2 ss2 h2 hs2 with ⟨he2, hc2⟩ | ⟨hm2, _⟩
        · rw [he1, he2]
        · rw [he1]
          rcases hc1 with rfl | hc1
          · exact (hop u2 ss2 hm2 hs2).symm
          · exact huniq uid _ u2 ss2 s (hlkmem s hc1) hm2 hc1 hs2
        · rw [he2]
          rcases hc2 with rfl | hc2
          · exact hop u1 ss1 hm1 hs1
          · exact huniq u1 ss1 uid _ s hm1 (hlkmem s hc2) hs1 hc2
        · exact huniq u1 ss1 u2 ss2 s hm1 hm2 hs1 hs2
  | joinRoom uid cid hst ih => exact ih
  | leaveRoom uid cid hst ih =>
      rw [handleLeaveRoom_users, handleLeaveRoom_sessions]
      exact ih

/-- C3 (amended): in every registry state reachable from the empty
registry by Hub operations in which each `Authenticate(session, user)` is
issued while the session is registered in `sessions` and the session is
not already recorded under a different user, every session_id appearing
in some user entry of `users` also exists in `sessions`.  (As stated the
claim is false — see the counterexample — because `Authenticate` creates
the entry regardless of whether the session exists.) -/
theorem C3_amended_users_subset_sessions (st : WebSocketServer) (h : WFReachable st) :
    ∀ u ss s, (u, ss) ∈ st.users → s ∈ ss → s ∈ st.sessions :=
  (registryWF_of_wfReachable st h).2.1

/-- C3 witness: after a connect of session 5 followed by its
authenticate as user 1, the session 5 recorded under user 1 is indeed in
the sessions map. -/
theorem C3_amended_users_subset_sessions_witness :
    5 ∈ (handleAuthenticate (handleConnect WebSocketServer.new 5).1 5 1).1.sessions :=
  C3_amended_users_subset_sessions _
    (WFReachable.authenticate 5 1 (WFReachable.connect 5 WFReachable.empty)
      (by decide) (fun u ss hmem _ => absurd hmem (List.not_mem_nil _)))
    1 [5] 5 (by decide) (by decide)

/-! ### C4 — BroadcastToRoom delivery set -/

/-- Inner loop of the `BroadcastToRoom` handler for one room member: send
the frame to each session of the user (via `send_to_session`, which drops
sessions no longer in `sessions`). -/
def emitToUser (st : WebSocketServer) (uid : Uuid) (msg : ServerMsg) : List Outbound :=
  match lookup st.users uid with
  | some sids => sids.flatMap (fun sessionId => sendToSession st sessionId msg)
  | none => []

/-- Handler of the `BroadcastToRoom` event: walk the room membership,
skip the optional `skip_user_id`, and fan out to each member session. -/
def broadcastToRoom (st : WebSocketServer) (cid : Uuid) (msg : ServerMsg)
    (skip : Option Uuid) : List Outbound :=
  match lookup st.rooms cid with
  | none => []
  | some roomUsers =>
      roomUsers.flatMap (fun uid => if skip = some uid then [] else emitToUser st uid msg)

theorem mem_emitToUser {st : WebSocketServer} {uid : Uuid} {msg : ServerMsg} {p : Outbound}
    (hp : p ∈ emitToUser st uid msg) :
    ∃ ss, lookup st.users uid = some ss ∧ p.1 ∈ ss ∧ p.1 ∈ st.sessions ∧ p.2 = msg := by
  unfold emitToUser at hp
  cases hlk : lookup st.users uid with
  | none => rw [hlk] at hp; simp at hp
  | some ss =>
      rw [hlk] at hp
      rw [List.mem_flatMap] at hp
      obtain ⟨sid, hsid, hmem⟩ := hp
      unfold sendToSession at hmem
      by_cases hc : sid ∈ st.sessions
      · rw [if_pos hc] at hmem
        rw [List.mem_singleton] at hmem
        refine ⟨ss, rfl, ?_, ?_, ?_⟩
        · rw [hmem]; exact hsid
        · rw [hmem]; exact hc
        · rw [hmem]
      · rw [if_neg hc] at hmem
        simp at hmem

theorem emitToUser_mem {st : WebSocketServer} {uid : Uuid} {msg : ServerMsg} {ss : List Uuid}
    {sid : Uuid} (hlk : lookup st.users uid = some ss) (hsid : sid ∈ ss)
    (hsess : sid ∈ st.sessions) : (sid, msg) ∈ emitToUser st uid msg := by
  unfold emitToUser
  rw [hlk, List.mem_flatMap]
  refine ⟨sid, hsid, ?_⟩
  unfold sendToSession
  rw [if_pos hsess]
  exact List.mem_singleton.mpr rfl

/-- C4: a `BroadcastToRoom(conversation_id, message, skip_user_id)` with
`skip_user_id = Some(sender)` delivers to no session owned by the sender
(given that the session is not also recorded under another user), and
with `skip_user_id = None` it delivers to every registered session of
every user in the room set, the sender included. -/
theorem C4_broadcast_skip_semantics (st : WebSocketServer) (cid : Uuid) (msg : ServerMsg)
    (sender : Uuid) :
    (∀ sid, sid ∈ (lookup st.users sender).getD [] →
      (∀ u ss, (u, ss) ∈ st.users → sid ∈ ss → u = sender) →
      ∀ m', (sid, m') ∉ broadcastToRoom st cid msg (some sender)) ∧
    (∀ room uid ss sid, lookup st.rooms cid = some room → uid ∈ room →
      lookup st.users uid = some ss → sid ∈ ss → sid ∈ st.sessions →
      (sid, msg) ∈ broadcastToRoom st cid msg none) := by
  constructor
  · intro sid _ hown m' hmem
    unfold broadcastToRoom at hmem
    cases hlr : lookup st.rooms cid with
    | none => rw [hlr] at hmem; simp at hmem
    | some room =>
        rw [hlr, List.mem_flatMap] at hmem
        obtain ⟨uid, _, hin⟩ := hmem
        by_cases heq : some sender = some uid
        · rw [if_pos heq] at hin
          simp at hin
        · rw [if_neg heq] at hin
          obtain ⟨ss, hlk, hsid, _, _⟩ := mem_emitToUser hin
          exact heq (congrArg some (hown uid ss (lookup_mem hlk) hsid).symm)
  · intro room uid ss sid hlr hroom hlk hsid hsess
    unfold broadcastToRoom
    rw [hlr, List.mem_flatMap]
    refine ⟨uid, hroom, ?_⟩
    rw [if_neg (by simp)]
    exact emitToUser_mem hlk hsid hsess

/-- C4 witness: a registry with two users in one room; user 1 owns
sessions 10 and 11, user 2 owns session 20.  Skipping sender 1 keeps
session 10 out of the delivery set; with no skip, session 10 receives
the frame. -/
theorem C4_broadcast_skip_semantics_witness :
    (10, ServerMsg.pong) ∉
      broadcastToRoom
        { sessions := [10, 11, 20], users := [(1, [10, 11]), (2, [20])],
          rooms := [(7, [1, 2])] } 7 ServerMsg.pong (some 1) ∧
    (10, ServerMsg.pong) ∈
      broadcastToRoom
        { sessions := [10, 11, 20], users := [(1, [10, 11]), (2, [20])],
          rooms := [(7, [1, 2])] } 7 ServerMsg.pong none := by
  constructor
  · exact (C4_broadcast_skip_semantics _ 7 ServerMsg.pong 1).1 10 (by decide)
      (by
        intro u ss hmem h10
        simp only [List.mem_cons, List.not_mem_nil, or_false] at hmem
        rcases hmem with h | h <;>
          (rw [Prod.mk.injEq] at h; obtain ⟨h1, h2⟩ := h; rw [h2] at h10) <;>
          simp_all)
      ServerMsg.pong
  · exact (C4_broadcast_skip_semantics _ 7 ServerMsg.pong 1).2 [1, 2] 1 [10, 11] 10
      (by decide) (by decide) (by decide) (by decide) (by decide)

/-! ### C5 — Disconnect and multi-device users -/

theorem removeElem_eq_nil_of_all {ss : List Uuid} {s : Uuid} (hall : ∀ t ∈ ss, t = s) :
    removeElem ss s = [] := by
  rw [removeElem, List.filter_eq_nil_iff]
  intro t ht
  simp [bne_iff_ne, hall t ht]

/-- A user entry that keeps a session after the `Disconnect` scan keeps
its key in the map. -/
theorem removeSessionFromUsers_keeps {m : List (Uuid × List Uuid)} {sid u : Uuid}
    {ss : List Uuid} (hmem : (u, ss) ∈ m) (hne : removeElem ss sid ≠ []) :
    u ∈ (removeSessionFromUsers m sid).1.map Prod.fst := by
  induction m with
  | nil => simp at hmem
  | cons q rest ih =>
      rcases List.mem_cons.mp hmem with hq | hq
      · have hq1 : q.1 = u := congrArg Prod.fst hq.symm
        by_cases hs : sid ∈ q.2
        · have hq2 : q.2 = ss := congrArg Prod.snd hq.symm
          have he : ¬ (removeElem q.2 sid).isEmpty := by
            rw [hq2, List.isEmpty_iff]
            exact hne
          rw [show q = (q.1, q.2) from rfl, removeSessionFromUsers]
          simp only [if_pos hs, if_neg he, List.map_cons]
          rw [hq1]
          exact List.mem_cons_self _ _
        · rw [show q = (q.1, q.2) from rfl, removeSessionFromUsers]
          simp only [if_neg hs, List.map_cons]
          rw [hq1]
          exact List.mem_cons_self _ _
      · by_cases hs : sid ∈ q.2
        · by_cases he : (removeElem q.2 sid).isEmpty
          · rw [show q = (q.1, q.2) from rfl, removeSessionFromUsers]
            simp only [if_pos hs, if_pos he]
            exact List.mem_map_of_mem Prod.fst hq
          · rw [show q = (q.1, q.2) from rfl, removeSessionFromUsers]
            simp only [if_pos hs, if_neg he, List.map_cons]
            exact List.mem_cons_of_mem _ (List.mem_map_of_mem Prod.fst hq)
        · rw [show q = (q.1, q.2) from rfl, removeSessionFromUsers]
          simp only [if_neg hs, List.map_cons]
          exact List.mem_cons_of_mem _ (ih hq)

/-- When the disconnected session is the single session of its unique
owner, the `Disconnect` scan drops exactly that owner entry and reports
the owner. -/
theorem removeSessionFromUsers_last {m : List (Uuid × List Uuid)} {s u : Uuid} {ss : List Uuid}
    (hnd : (m.map Prod.fst).Nodup) (hmem : (u, ss) ∈ m) (hs : s ∈ ss)
    (hall : ∀ t ∈ ss, t = s)
    (huniq : ∀ u' ss', (u', ss') ∈ m → s ∈ ss' → u' = u) :
    removeSessionFromUsers m s = (m.filter (fun p => p.1 != u), some u) := by
  induction m with
  | nil => simp at hmem
  | cons q rest ih =>
      have hnd' := hnd
      rw [List.map_cons, List.nodup_cons] at hnd'
      by_cases hqs : s ∈ q.2
      · have hq1 : q.1 = u :=
          huniq q.1 q.2 (show (q.1, q.2) ∈ q :: rest from List.mem_cons_self _ _) hqs
        have hqhead : (u, ss) = q := by
          rcases List.mem_cons.mp hmem with h | h
          · exact h
          · exfalso
            apply hnd'.1
            rw [hq1]
            exact List.mem_map_of_mem Prod.fst h
        have hq2 : q.2 = ss := congrArg Prod.snd hqhead.symm
        have he : (removeElem q.2 s).isEmpty := by
          rw [hq2, removeElem_eq_nil_of_all hall]
          rfl
        have hrest : rest.filter (fun p => p.1 != u) = rest := by
          rw [List.filter_eq_self]
          intro p hp
          have hne : p.1 ≠ u := by
            intro hc
            apply hnd'.1
            rw [hq1, ← hc]
            exact List.mem_map_of_mem Prod.fst hp
          simpa [bne_iff_ne] using hne
        have hfq : (q.1 != u) = false := by simp [hq1]
        rw [show q = (q.1, q.2) from rfl, removeSessionFromUsers]
        simp only [if_pos hqs, if_pos he, List.filter_cons, hfq, Bool.false_eq_true,
          if_false, hrest, hq1, bne_self_eq_false]
      · have hrest : (u, ss) ∈ rest := by
          rcases List.mem_cons.mp hmem with h | h
          · exfalso
            have : q.2 = ss := congrArg Prod.snd h.symm
            rw [this] at hqs
            exact hqs hs
          · exact h
        have hqne : q.1 ≠ u := by
          intro hc
          apply hnd'.1
          rw [hc]
          exact List.mem_map_of_mem Prod.fst hrest
        have huniqr : ∀ u' ss', (u', ss') ∈ rest → s ∈ ss' → u' = u :=
          fun u' ss' h' hs' => huniq u' ss' (List.mem_cons_of_mem _ h') hs'
        have hbq : (q.1 != u) = true := by simpa [bne_iff_ne] using hqne
        rw [show q = (q.1, q.2) from rfl, removeSessionFromUsers]
        simp only [if_neg hqs, ih hnd'.2 hrest huniqr, List.filter_cons, hbq, if_true]

theorem handleDisconnect_rooms_some {st : WebSocketServer} {sid uid : Uuid}
    (h : (removeSessionFromUsers st.users sid).2 = some uid) :
    (handleDisconnect st sid).1.rooms =
      (st.rooms.map (fun p => (p.1, removeElem p.2 uid))).filter (fun p => !p.2.isEmpty) := by
  unfold handleDisconnect
  simp [h]

/-- C5: disconnecting one of at least two sessions of a user leaves the
user present in `users`; disconnecting the single session of a user (that
no other user also records) removes the user entry, removes the user from
every room set, drops rooms that became empty and keeps the filtered sets
of rooms that stayed non-empty. -/
theorem C5_disconnect_last_session (st : WebSocketServer) (s : Uuid) :
    (∀ u ss, (u, ss) ∈ st.users → s ∈ ss → (∃ t ∈ ss, t ≠ s) →
      u ∈ (handleDisconnect st s).1.users.map Prod.fst) ∧
    (∀ u ss, (u, ss) ∈ st.users → s ∈ ss → (∀ t ∈ ss, t = s) →
      (st.users.map Prod.fst).Nodup →
      (∀ u' ss', (u', ss') ∈ st.users → s ∈ ss' → u' = u) →
      u ∉ (handleDisconnect st s).1.users.map Prod.fst ∧
      (∀ c us, (c, us) ∈ (handleDisconnect st s).1.rooms → u ∉ us ∧ us ≠ []) ∧
      (∀ c us, (c, us) ∈ st.rooms → removeElem us u ≠ [] →
        (c, removeElem us u) ∈ (handleDisconnect st s).1.rooms)) := by
  constructor
  · intro u ss hmem hs ht
    rw [handleDisconnect_users]
    obtain ⟨t, htm, htne⟩ := ht
    exact removeSessionFromUsers_keeps hmem
      (fun hc => (List.eq_nil_iff_forall_not_mem.mp hc t) (mem_removeElem_of htm htne))
  · intro u ss hmem hs hall hnd huniq
    have hlast := removeSessionFromUsers_last hnd hmem hs hall huniq
    have hsome : (removeSessionFromUsers st.users s).2 = some u := by rw [hlast]
    have hro := handleDisconnect_rooms_some hsome
    refine ⟨?_, ?_, ?_⟩
    · rw [handleDisconnect_users, hlast]
      intro hc
      rw [List.mem_map] at hc
      obtain ⟨p, hp, hp1⟩ := hc
      rw [List.mem_filter] at hp
      have := hp.2
      rw [hp1] at this
      simp at this
    · intro c us hcm
      rw [hro] at hcm
      rw [List.mem_filter] at hcm
      obtain ⟨hin, hpred⟩ := hcm
      rw [List.mem_map] at hin
      obtain ⟨p, hp, hpe⟩ := hin
      constructor
      · intro hu
        have : us = removeElem p.2 u := (congrArg Prod.snd hpe).symm
        rw [this] at hu
        exact (mem_removeElem hu).2 rfl
      · intro hnil
        rw [hnil] at hpred
        simp at hpred
    · intro c us hcm hne
      rw [hro, List.mem_filter]
      constructor
      · rw [List.mem_map]
        exact ⟨(c, us), hcm, rfl⟩
      · simpa [List.isEmpty_iff] using hne

/-- C5 witness: user 1 with sessions 10 and 11 survives losing session
10; a lone user 1 with only session 10, joined to rooms 7 (with user 2)
and 8 (alone), is fully removed, room 8 is dropped and room 7 keeps
user 2. -/
theorem C5_disconnect_last_session_witness :
    1 ∈ (handleDisconnect
      { sessions := [10, 11], users := [(1, [10, 11])], rooms := [] } 10).1.users.map
        Prod.fst ∧
    1 ∉ (handleDisconnect
      { sessions := [10, 20], users := [(1, [10]), (2, [20])],
        rooms := [(7, [1, 2]), (8, [1])] } 10).1.users.map Prod.fst ∧
    (7, removeElem [1, 2] 1) ∈ (handleDisconnect
      { sessions := [10, 20], users := [(1, [10]), (2, [20])],
        rooms := [(7, [1, 2]), (8, [1])] } 10).1.rooms ∧
    (1 ∉ [2] ∧ [2] ≠ ([] : List Uuid)) := by
  refine ⟨?_, ?_, ?_, ?_⟩
  · exact (C5_disconnect_last_session _ 10).1 1 [10, 11] (by decide) (by decide)
      ⟨11, by decide, by decide⟩
  · exact ((C5_disconnect_last_session _ 10).2 1 [10] (by decide) (by decide)
      (by decide) (by decide)
      (by
        intro u' ss' hmem h10
        simp only [List.mem_cons, List.not_mem_nil, or_false] at hmem
        rcases hmem with h | h <;>
          (rw [Prod.mk.injEq] at h; obtain ⟨h1, h2⟩ := h; rw [h2] at h10) <;>
          simp_all)).1
  · exact ((C5_disconnect_last_session _ 10).2 1 [10] (by decide) (by decide)
      (by decide) (by decide)
      (by
        intro u' ss' hmem h10
        simp only [List.mem_cons, List.not_mem_nil, or_false] at hmem
        rcases hmem with h | h <;>
          (rw [Prod.mk.injEq] at h; obtain ⟨h1, h2⟩ := h; rw [h2] at h10) <;>
          simp_all)).2.2 7 [1, 2] (by decide) (by decide)
  · exact ((C5_disconnect_last_session
      { sessions := [10, 20], users := [(1, [10]), (2, [20])],
        rooms := [(7, [1, 2]), (8, [1])] } 10).2 1 [10] (by decide) (by decide)
      (by decide) (by decide)
      (by
        intro u' ss' hmem h10
        simp only [List.mem_cons, List.not_mem_nil, or_false] at hmem
        rcases hmem with h | h <;>
          (rw [Prod.mk.injEq] at h; obtain ⟨h1, h2⟩ := h; rw [h2] at h10) <;>
          simp_all)).2.1 7 [2] (by decide)

/-! ### C2 — friend-scoped presence fan-out -/

/-- Modelled from the spec: the Hub handler for `UserPresenceChanged` is
declared in `websocket/events.rs` and invoked from `session.rs`, but the
`Handler` impl for `WebSocketServer` is absent from src.  Per the spec
registry interface: friend-scoped fan-out — for each friend_id in
`friend_ids` that is currently connected (present in `users`), send a
`UserOnline{user_id}` (when online) or `UserOffline{user_id, last_seen}`
(when offline) event to every session of that friend; friends not
connected are silently skipped. -/
def handleUserPresenceChanged (st : WebSocketServer) (uid : Uuid) (isOnline : Bool)
    (friendIds : List Uuid) (lastSeen : Option String) : List Outbound :=
  friendIds.flatMap (fun fid =>
    match lookup st.users fid with
    | some sids => sids.map (fun sessionId =>
        (sessionId, if isOnline then ServerMsg.userOnline uid
         else ServerMsg.userOffline uid lastSeen))
    | none => [])

/-- C2: a `UserPresenceChanged(user_id, is_online, friend_ids, last_seen)`
delivery set is exactly: every session of each friend currently present in
`users` receives `UserOnline{user_id}` when online and
`UserOffline{user_id, last_seen}` when offline — and no other session
receives anything; friends not in `users` are silently skipped. -/
theorem C2_presence_fanout (st : WebSocketServer) (uid : Uuid) (isOnline : Bool)
    (friendIds : List Uuid) (lastSeen : Option String) (sid : Uuid) (m : ServerMsg) :
    (sid, m) ∈ handleUserPresenceChanged st uid isOnline friendIds lastSeen ↔
      (∃ fid ∈ friendIds, ∃ ss, lookup st.users fid = some ss ∧ sid ∈ ss) ∧
        m = (if isOnline then ServerMsg.userOnline uid
             else ServerMsg.userOffline uid lastSeen) := by
  unfold handleUserPresenceChanged
  rw [List.mem_flatMap]
  constructor
  · rintro ⟨fid, hf, hin⟩
    cases hlk : lookup st.users fid with
    | none => rw [hlk] at hin; simp at hin
    | some ss =>
        rw [hlk, List.mem_map] at hin
        obtain ⟨s0, hs0, heq⟩ := hin
        rw [Prod.mk.injEq] at heq
        obtain ⟨h1, h2⟩ := heq
        refine ⟨⟨fid, hf, ss, hlk, ?_⟩, h2.symm⟩
        rw [← h1]
        exact hs0
  · rintro ⟨⟨fid, hf, ss, hlk, hsid⟩, rfl⟩
    refine ⟨fid, hf, ?_⟩
    rw [hlk]
    exact List.mem_map_of_mem _ hsid

/-! ### C10 — global OnlineUsers broadcast on first/last session -/

theorem handleDisconnect_out_some {st : WebSocketServer} {sid uid : Uuid}
    (h : (removeSessionFromUsers st.users sid).2 = some uid) :
    (handleDisconnect st sid).2 = broadcastOnlineUsers (handleDisconnect st sid).1 := by
  unfold handleDisconnect
  simp [h]

/-- C10: when `Authenticate` adds the first session of a user (the
session set was absent or empty), and when `Disconnect` removes the single
session of its unique owner, the Hub sends an `OnlineUsers` frame listing
the keys of the updated `users` map — all currently authenticated users —
to every session of the `sessions` map, unauthenticated sessions
included. -/
theorem C10_online_users_broadcast (st : WebSocketServer) (sid uid : Uuid) :
    ((lookup st.users uid).getD [] = [] →
      (handleAuthenticate st sid uid).2 =
        st.sessions.map (fun s =>
          (s, ServerMsg.onlineUsers
            ((handleAuthenticate st sid uid).1.users.map Prod.fst)))) ∧
    (∀ ss, (uid, ss) ∈ st.users → sid ∈ ss → (∀ t ∈ ss, t = sid) →
      (st.users.map Prod.fst).Nodup →
      (∀ u' ss', (u', ss') ∈ st.users → sid ∈ ss' → u' = uid) →
      (handleDisconnect st sid).2 =
        (removeElem st.sessions sid).map (fun s =>
          (s, ServerMsg.onlineUsers ((handleDisconnect st sid).1.users.map Prod.fst)))) := by
  constructor
  · intro hempty
    unfold handleAuthenticate
    simp only [hempty, List.isEmpty_nil, if_true, broadcastOnlineUsers, getOnlineUsers]
  · intro ss hmem hs hall hnd huniq
    have hlast := removeSessionFromUsers_last hnd hmem hs hall huniq
    rw [handleDisconnect_out_some (by rw [hlast])]
    simp only [broadcastOnlineUsers, getOnlineUsers, handleDisconnect_sessions]

/-- C10 witness: user 1 authenticating its first session broadcasts the
online list to every session (session 20 of user 2 and the fresh session
10); the symmetric disconnect of a last session broadcasts to the
remaining session. -/
theorem C10_online_users_broadcast_witness :
    (handleAuthenticate
        { sessions := [10, 20], users := [(2, [20])], rooms := [] } 10 1).2 =
      [10, 20].map (fun s =>
        (s, ServerMsg.onlineUsers
          ((handleAuthenticate
            { sessions := [10, 20], users := [(2, [20])], rooms := [] } 10 1).1.users.map
              Prod.fst))) ∧
    (handleDisconnect
        { sessions := [10, 20], users := [(1, [10]), (2, [20])], rooms := [] } 10).2 =
      (removeElem [10, 20] 10).map (fun s =>
        (s, ServerMsg.onlineUsers
          ((handleDisconnect
            { sessions := [10, 20], users := [(1, [10]), (2, [20])], rooms := [] }
              10).1.users.map Prod.fst))) := by
  constructor
  · exact (C10_online_users_broadcast _ 10 1).1 (by decide)
  · exact (C10_online_users_broadcast _ 10 1).2 [10] (by decide) (by decide) (by decide)
      (by decide)
      (by
        intro u' ss' hmem h10
        simp only [List.mem_cons, List.not_mem_nil, or_false, Prod.mk.injEq] at hmem
        rcases hmem with ⟨h1, h2⟩ | ⟨h1, h2⟩
        · exact h1
        · rw [h2] at h10; simp at h10)

/-! ### Session auth handling (C6) -/

/-- Token kinds (`TypeClaims` in `utils/mod.rs`). -/
inductive TypeClaims where
  | accessToken
  | refreshToken
deriving DecidableEq

/-- JWT claims (`Claims` in `utils/mod.rs`): the subject user id and the
optional token kind; the other fields are not consulted on the session
auth path. -/
structure Claims where
  sub : Uuid
  _type : Option TypeClaims
deriving DecidableEq

/-- Requests a session actor addresses to the Hub with `do_send`. -/
inductive HubMsg where
  | authenticate (sessionId userId : Uuid)
  | joinRoom (userId conversationId : Uuid)
  | leaveRoom (userId conversationId : Uuid)
deriving DecidableEq

/-- Observable outcome of one `handle_auth` call: frames sent to the own
client, requests sent to the Hub, and the session user_id afterwards. -/
structure AuthStep where
  toClient : List ServerMsg
  toHub : List HubMsg
  userId : Option Uuid
deriving DecidableEq

/-- Auth handling of the session actor (`WebSocketSession::handle_auth`):
an already-authenticated session is answered through `send_error` (a
`ServerMessage::Error` frame) and nothing else happens; otherwise the
token is decoded (JWT verification is an external collaborator, passed as
a function), non-access tokens are rejected with `AuthFailed`, and on
success the session records the user id, sends `Authenticate` to the Hub
and answers `AuthSuccess`.  The detached presence flow spawned afterwards
is modelled separately (`handleUserPresenceChanged`). -/
def handle_auth (decode : String → Option Claims) (sessionId : Uuid)
    (userId : Option Uuid) (token : String) : AuthStep :=
  if userId.isSome then
    { toClient := [ServerMsg.error "Session đã được xác thực"], toHub := [],
      userId := userId }
  else
    match decode token with
    | none =>
        { toClient := [ServerMsg.authFailed "Token không hợp lệ hoặc đã hết hạn"],
          toHub := [], userId := none }
    | some claims =>
        if claims._type = some TypeClaims.accessToken then
          { toClient := [ServerMsg.authSuccess claims.sub],
            toHub := [HubMsg.authenticate sessionId claims.sub],
            userId := some claims.sub }
        else
          { toClient := [ServerMsg.authFailed "Chỉ chấp nhận access token"],
            toHub := [], userId := none }

/-- Recogniser for `AuthFailed` frames. -/
def ServerMsg.isAuthFailed : ServerMsg → Bool
  | ServerMsg.authFailed _ => true
  | _ => false

/-- C6 counterexample: a session already authenticated as user 1 that
receives a further Auth frame answers with a `ServerMessage::Error` frame
(`send_error`), not with an `AuthFailed` frame, refuting the claim as
stated. -/
theorem C6_counterexample :
    ((handle_auth (fun _ => none) 0 (some 1) "token").toClient.any
      ServerMsg.isAuthFailed) = false ∧
    (handle_auth (fun _ => none) 0 (some 1) "token").toClient =
      [ServerMsg.error "Session đã được xác thực"] :=
  ⟨rfl, rfl⟩

/-- C6 (amended): for every session whose user_id is already set, a
further Auth frame makes the session send an `Error` frame (not an
`AuthFailed` frame) to its own client, send nothing to the Hub, and keep
its original user_id. -/
theorem C6_auth_replay (decode : String → Option Claims) (sessionId : Uuid) (u : Uuid)
    (token : String) :
    handle_auth decode sessionId (some u) token =
      { toClient := [ServerMsg.error "Session đã được xác thực"], toHub := [],
        userId := some u } := rfl

/-! ### Message send paths (C7, C9) -/

/-- Last-message payload constructed identically by the websocket send
path (`session.rs::handle_send_message`) and by the REST helper
(`MessageService::build_new_message_event`): the display name is left
empty for the client to fill. -/
def lastMessageOf (m : MessageEntity) : LastMessageInfo :=
  { mid := m.id, content := m.content, createdAt := m.createdAt,
    sender := { sid := m.senderId, displayName := "", avatarUrl := none } }

/-- Modelled from the spec: the `ServerMessage::new_message` constructor
is referenced from `session.rs` and `message/service.rs` but absent from
the `message.rs` in src; per the spec it assembles the
`NewMessage{conversation_id, message, ...enrichment fields}` frame from
the serialized message row, the conversation id, the last-message
snapshot, the timestamp and the unread counts. -/
def ServerMsg.new_message (message : MessageEntity) (conversationId : Uuid)
    (lastMessage : LastMessageInfo) (timestamp : String)
    (unreadCounts : List (Uuid × Int)) : ServerMsg :=
  ServerMsg.newMessage message conversationId lastMessage timestamp unreadCounts

/-- Payload of a `BroadcastToRoom` request (`websocket/events.rs`). -/
structure BroadcastToRoomReq where
  conversation_id : Uuid
  message : ServerMsg
  skip_user_id : Option Uuid
deriving DecidableEq

/-- Event construction helper of the REST message service
(`MessageService::build_new_message_event`). -/
def build_new_message_event (m : MessageEntity) (unreadCounts : List (Uuid × Int)) :
    ServerMsg :=
  ServerMsg.new_message m m.conversationId (lastMessageOf m) m.createdAt unreadCounts

/-- `MessageService::send_group_message`: the transactional persistence
(create + unread counts + last message + timestamp) is an external
repository collaborator whose outcome is passed in; once it commits, the
service broadcasts the enriched new-message event to the room skipping
the sender, and returns the message row. -/
def send_group_message (sender_id : Uuid) (conversation_id : Uuid)
    (persisted : Except String MessageEntity) (unreadCounts : List (Uuid × Int)) :
    Except String MessageEntity × List BroadcastToRoomReq :=
  match persisted with
  | Except.error e => (Except.error e, [])
  | Except.ok m =>
      (Except.ok m,
        [{ conversation_id := conversation_id,
           message := build_new_message_event m unreadCounts,
           skip_user_id := some sender_id }])

/-- `MessageService::send_direct_message`: same success path against the
resolved direct conversation; the broadcast also skips the sender. -/
def send_direct_message (sender_id : Uuid) (conversationId : Uuid)
    (persisted : Except String MessageEntity) (unreadCounts : List (Uuid × Int)) :
    Except String MessageEntity × List BroadcastToRoomReq :=
  match persisted with
  | Except.error e => (Except.error e, [])
  | Except.ok m =>
      (Except.ok m,
        [{ conversation_id := conversationId,
           message := build_new_message_event m unreadCounts,
           skip_user_id := some sender_id }])

/-- Websocket send path (`WebSocketSession::handle_send_message`): an
unauthenticated session only gets an error frame; otherwise the session
delegates persistence to `MessageService::send_group_message` (whose own
broadcast therefore also reaches the Hub) and, on success, requests its
own broadcast of a new-message event with `skip_user_id = None` and empty
unread counts; on failure it sends an error frame to its own client only.
Returns the broadcast requests that reached the Hub, in order, together
with the frames sent to the own client. -/
def handle_send_message (userId : Option Uuid) (conversation_id : Uuid)
    (persisted : Except String MessageEntity) (unreadCounts : List (Uuid × Int)) :
    List BroadcastToRoomReq × List ServerMsg :=
  match userId with
  | none => ([], [ServerMsg.error "Bạn cần xác thực trước khi thực hiện thao tác này"])
  | some uid =>
      let r := send_group_message uid conversation_id persisted unreadCounts
      match r.1 with
      | Except.ok m =>
          (r.2 ++
            [{ conversation_id := conversation_id,
               message := ServerMsg.new_message m conversation_id (lastMessageOf m)
                 m.createdAt [],
               skip_user_id := none }], [])
      | Except.error _ =>
          (r.2, [ServerMsg.error "Không thể gửi tin nhắn. Vui lòng thử lại."])

/-- Recogniser for new-message frames. -/
def ServerMsg.isNewMessage : ServerMsg → Bool
  | ServerMsg.newMessage _ _ _ _ _ => true
  | _ => false

/-- Message row carried by a new-message frame, if any. -/
def ServerMsg.newMessageBody : ServerMsg → Option MessageEntity
  | ServerMsg.newMessage msg _ _ _ _ => some msg
  | _ => none

/-- C7: on successful persistence the websocket send path issues its own
broadcast request (the last one to reach the Hub) with `skip_user_id =
None`, whereas the REST `send_direct_message` and `send_group_message`
paths issue their single broadcast with `skip_user_id = Some(sender_id)`;
all carry a NewMessage event. -/
theorem C7_sender_echo_asymmetry (uid conversation_id : Uuid) (m : MessageEntity)
    (unreadCounts : List (Uuid × Int)) :
    (((handle_send_message (some uid) conversation_id (Except.ok m) unreadCounts).1.getLast?).map
        (fun r => (r.skip_user_id, r.message.isNewMessage))) = some (none, true) ∧
    ((send_direct_message uid conversation_id (Except.ok m) unreadCounts).2.map
        (fun r => (r.skip_user_id, r.message.isNewMessage))) = [(some uid, true)] ∧
    ((send_group_message uid conversation_id (Except.ok m) unreadCounts).2.map
        (fun r => (r.skip_user_id, r.message.isNewMessage))) = [(some uid, true)] :=
  ⟨rfl, rfl, rfl⟩

/-! ### C9 — every non-sender room member is delivered the message twice -/

theorem emit_filter_of_not_mem {st : WebSocketServer} {msg : ServerMsg} {l : List Uuid}
    {sid : Uuid} (h : sid ∉ l) :
    (l.flatMap (fun s => sendToSession st s msg)).filter (fun p => p.1 == sid) = [] := by
  rw [List.filter_eq_nil_iff]
  intro p hp
  rw [List.mem_flatMap] at hp
  obtain ⟨s, hs, hmem⟩ := hp
  unfold sendToSession at hmem
  by_cases hc : s ∈ st.sessions
  · rw [if_pos hc, List.mem_singleton] at hmem
    intro hcon
    rw [hmem] at hcon
    simp only [beq_iff_eq] at hcon
    rw [hcon] at hs
    exact h hs
  · rw [if_neg hc] at hmem
    simp at hmem

theorem emit_filter_owner {st : WebSocketServer} {msg : ServerMsg} {ms : List Uuid}
    {sid : Uuid} (hnd : ms.Nodup) (hmem : sid ∈ ms) (hsess : sid ∈ st.sessions) :
    (ms.flatMap (fun s => sendToSession st s msg)).filter (fun p => p.1 == sid) =
      [(sid, msg)] := by
  induction ms with
  | nil => simp at hmem
  | cons s rest ih =>
      rw [List.flatMap_cons, List.filter_append]
      rw [List.nodup_cons] at hnd
      by_cases hseq : s = sid
      · subst hseq
        rw [emit_filter_of_not_mem hnd.1]
        unfold sendToSession
        rw [if_pos hsess]
        simp
      · rcases List.mem_cons.mp hmem with h | h
        · exact absurd h.symm hseq
        · rw [ih hnd.2 h]
          have hhead : (sendToSession st s msg).filter (fun p => p.1 == sid) = [] := by
            unfold sendToSession
            by_cases hc : s ∈ st.sessions
            · rw [if_pos hc]
              simp [hseq]
            · rw [if_neg hc]
              rfl
          rw [hhead]
          rfl

/-- Filtered fan-out over the room member list: the sole member owning
the session contributes the single delivery. -/
theorem room_fanout_filter {st : WebSocketServer} {msg : ServerMsg} {skip : Option Uuid}
    {member sid : Uuid} {ms : List Uuid}
    (hskip : skip ≠ some member) (hlk : lookup st.users member = some ms)
    (hms : ms.Nodup) (hsid : sid ∈ ms) (hsess : sid ∈ st.sessions)
    (hown : ∀ u ss, u ≠ member → lookup st.users u = some ss → sid ∉ ss) :
    ∀ room : List Uuid, room.Nodup → member ∈ room →
      ((room.flatMap (fun u => if skip = some u then [] else emitToUser st u msg)).filter
        (fun p => p.1 == sid)) = [(sid, msg)] := by
  intro room
  induction room with
  | nil => intro _ hmem; simp at hmem
  | cons u rest ih =>
      intro hndr hmem
      rw [List.flatMap_cons, List.filter_append]
      rw [List.nodup_cons] at hndr
      have hrestnil : ∀ l : List Uuid, member ∉ l →
          ((l.flatMap (fun v => if skip = some v then [] else emitToUser st v msg)).filter
            (fun p => p.1 == sid)) = [] := by
        intro l hnl
        rw [List.filter_eq_nil_iff]
        intro p hp
        rw [List.mem_flatMap] at hp
        obtain ⟨v, hv, hpin⟩ := hp
        have hvne : v ≠ member := fun hc => hnl (hc ▸ hv)
        by_cases hsv : skip = some v
        · rw [if_pos hsv] at hpin; simp at hpin
        · rw [if_neg hsv] at hpin
          obtain ⟨ss, hlkv, hp1, _, _⟩ := mem_emitToUser hpin
          intro hcon
          simp only [beq_iff_eq] at hcon
          exact hown v ss hvne hlkv (hcon ▸ hp1)
      by_cases hu : u = member
      · subst hu
        rw [if_neg hskip, hrestnil rest hndr.1]
        have hhead : (emitToUser st u msg).filter (fun p => p.1 == sid) = [(sid, msg)] := by
          unfold emitToUser
          rw [hlk]
          exact emit_filter_owner hms hsid hsess
        rw [hhead]
        rfl
      · have hmem' : member ∈ rest := by
          rcases List.mem_cons.mp hmem with h | h
          · exact absurd h.symm hu
          · exact h
        rw [ih hndr.2 hmem']
        have hhead : ((if skip = some u then [] else emitToUser st u msg).filter
            (fun p => p.1 == sid)) = [] := by
          by_cases hsv : skip = some u
          · rw [if_pos hsv]; rfl
          · rw [if_neg hsv]
            rw [List.filter_eq_nil_iff]
            intro p hp
            obtain ⟨ss, hlkv, hp1, _, _⟩ := mem_emitToUser hp
            intro hcon
            simp only [beq_iff_eq] at hcon
            exact hown u ss hu hlkv (hcon ▸ hp1)
        rw [hhead]
        rfl

theorem broadcast_filter_sid {st : WebSocketServer} {cid : Uuid} {msg : ServerMsg}
    {skip : Option Uuid} {room : List Uuid} {member sid : Uuid} {ms : List Uuid}
    (hlr : lookup st.rooms cid = some room) (hndr : room.Nodup) (hmem : member ∈ room)
    (hskip : skip ≠ some member)
    (hlk : lookup st.users member = some ms) (hms : ms.Nodup) (hsid : sid ∈ ms)
    (hsess : sid ∈ st.sessions)
    (hown : ∀ u ss, u ≠ member → lookup st.users u = some ss → sid ∉ ss) :
    (broadcastToRoom st cid msg skip).filter (fun p => p.1 == sid) = [(sid, msg)] := by
  unfold broadcastToRoom
  rw [hlr]
  exact room_fanout_filter hskip hlk hms hsid hsess hown room hndr hmem

/-- C9: a successful authenticated websocket SendMessage makes TWO
`BroadcastToRoom` requests for the same persisted message reach the Hub —
the one `MessageService::send_group_message` issues with `skip_user_id =
Some(sender)` and the one the session issues afterwards with
`skip_user_id = None` — so the session of a connected room member other
than the sender is delivered a NewMessage event for that message exactly
twice, once per request. -/
theorem C9_double_delivery (st : WebSocketServer) (sender conversation_id : Uuid)
    (m : MessageEntity) (unreadCounts : List (Uuid × Int)) (room : List Uuid)
    (member sid : Uuid) (ms : List Uuid)
    (hlr : lookup st.rooms conversation_id = some room) (hndr : room.Nodup)
    (hmem : member ∈ room) (hne : member ≠ sender)
    (hlk : lookup st.users member = some ms) (hms : ms.Nodup) (hsid : sid ∈ ms)
    (hsess : sid ∈ st.sessions)
    (hown : ∀ u ss, (u, ss) ∈ st.users → sid ∈ ss → u = member) :
    ((handle_send_message (some sender) conversation_id (Except.ok m) unreadCounts).1.flatMap
        (fun r => broadcastToRoom st r.conversation_id r.message r.skip_user_id)).filter
      (fun p => p.1 == sid) =
      [(sid, build_new_message_event m unreadCounts),
       (sid, ServerMsg.new_message m conversation_id (lastMessageOf m) m.createdAt [])] := by
  have hown' : ∀ u ss, u ≠ member → lookup st.users u = some ss → sid ∉ ss :=
    fun u ss hneu hlku hsin => hneu (hown u ss (lookup_mem hlku) hsin)
  have hreqs : (handle_send_message (some sender) conversation_id
      (Except.ok m) unreadCounts).1 =
      [{ conversation_id := conversation_id,
         message := build_new_message_event m unreadCounts,
         skip_user_id := some sender },
       { conversation_id := conversation_id,
         message := ServerMsg.new_message m conversation_id (lastMessageOf m) m.createdAt [],
         skip_user_id := none }] := rfl
  rw [hreqs, List.flatMap_cons, List.flatMap_cons, List.flatMap_nil, List.append_nil,
    List.filter_append]
  rw [broadcast_filter_sid hlr hndr hmem
    (fun hc => hne (Option.some.inj hc).symm) hlk hms hsid hsess hown']
  rw [broadcast_filter_sid hlr hndr hmem
    (fun hc => Option.noConfusion hc) hlk hms hsid hsess hown']
  rfl

/-- Sample persisted message row used by concrete witnesses. -/
def sampleMessage : MessageEntity :=
  { id := 100, conversationId := 7, senderId := 1, replyToId := none,
    content := some "hi", fileUrl := none, isEdited := false, deletedAt := none,
    createdAt := "2025-01-01T00:00:00Z", updatedAt := "2025-01-01T00:00:00Z" }

/-- C9 witness: with users 1 (sessions 10, 11) and 2 (session 20) joined
to room 7, a websocket send by user 1 delivers the message to session 20
of member 2 exactly twice. -/
theorem C9_double_delivery_witness :
    (((handle_send_message (some 1) 7 (Except.ok sampleMessage) []).1.flatMap
        (fun r => broadcastToRoom
          { sessions := [10, 11, 20], users := [(1, [10, 11]), (2, [20])],
            rooms := [(7, [1, 2])] } r.conversation_id r.message r.skip_user_id)).filter
      (fun p => p.1 == 20)) =
      [(20, build_new_message_event sampleMessage []),
       (20, ServerMsg.new_message sampleMessage 7 (lastMessageOf sampleMessage)
         sampleMessage.createdAt [])] :=
  C9_double_delivery _ 1 7 sampleMessage [] [1, 2] 2 20 [20]
    (by decide) (by decide) (by decide) (by decide) (by decide) (by decide) (by decide)
    (by decide)
    (by
      intro u ss hmem h20
      simp only [List.mem_cons, List.not_mem_nil, or_false, Prod.mk.injEq] at hmem
      rcases hmem with ⟨h1, h2⟩ | ⟨h1, h2⟩
      · rw [h2] at h20; simp at h20
      · exact h1)

/-! ### C8 — presence batch query -/

/-- State of the external ephemeral presence store: whether the
`presence:` key of a user exists, and the stored `last_seen:` value of a
user, if any (`websocket/presence.rs` key schema). -/
structure RedisState where
  presence : Uuid → Bool
  lastSeen : Uuid → Option String

/-- Presence record returned per user (`PresenceInfo` in
`websocket/presence.rs`). -/
structure PresenceInfo where
  user_id : Uuid
  is_online : Bool
  last_seen : Option String
deriving DecidableEq

/-- Observable shape of one batch query: the ids whose presence keys are
checked in the first pipelined round trip, the ids whose last_seen keys
are fetched in the second pipelined round trip, and the combined
results. -/
structure BatchResult where
  existsPipe : List Uuid
  lastSeenPipe : List Uuid
  results : List PresenceInfo
deriving DecidableEq

/-- Step 3 of `PresenceService::get_online_status_batch`: walk the
(user, online flag) pairs consuming the fetched last_seen values in order
(the `ls_idx` cursor), defaulting to none when the fetched list is
exhausted. -/
def combineBatch : List (Uuid × Bool) → List (Option String) → List PresenceInfo
  | [], _ => []
  | (u, true) :: rest, last_seens =>
      { user_id := u, is_online := true, last_seen := none } :: combineBatch rest last_seens
  | (u, false) :: rest, [] =>
      { user_id := u, is_online := false, last_seen := none } :: combineBatch rest []
  | (u, false) :: rest, ls :: lss =>
      { user_id := u, is_online := false, last_seen := ls } :: combineBatch rest lss

/-- `PresenceService::get_online_status_batch`: empty input
short-circuits with no round trips; otherwise one pipelined EXISTS round
trip over all ids, a second pipelined GET round trip over exactly the
subset found offline, then the combination of both answers. -/
def get_online_status_batch (st : RedisState) (user_ids : List Uuid) : BatchResult :=
  if user_ids.isEmpty then { existsPipe := [], lastSeenPipe := [], results := [] }
  else
    let online_flags := user_ids.map st.presence
    let offline_ids := ((user_ids.zip online_flags).filter (fun p => !p.2)).map Prod.fst
    let last_seens := offline_ids.map st.lastSeen
    { existsPipe := user_ids, lastSeenPipe := offline_ids,
      results := combineBatch (user_ids.zip online_flags) last_seens }

theorem offline_ids_eq (f : Uuid → Bool) :
    ∀ l : List Uuid,
      ((l.zip (l.map f)).filter (fun p => !p.2)).map Prod.fst =
        l.filter (fun u => !f u) := by
  intro l
  induction l with
  | nil => rfl
  | cons u rest ih =>
      rw [List.map_cons, List.zip_cons_cons, List.filter_cons, List.filter_cons]
      by_cases hf : f u = true
      · simp only [hf, Bool.not_true, Bool.false_eq_true, if_false, ih]
      · rw [Bool.not_eq_true] at hf
        simp only [hf, Bool.not_false, if_true, List.map_cons, ih]

theorem combineBatch_eq (f : Uuid → Bool) (g : Uuid → Option String) :
    ∀ l : List Uuid,
      combineBatch (l.zip (l.map f))
        ((((l.zip (l.map f)).filter (fun p => !p.2)).map Prod.fst).map g) =
      l.map (fun u =>
        if f u then { user_id := u, is_online := true, last_seen := none }
        else { user_id := u, is_online := false, last_seen := g u }) := by
  intro l
  induction l with
  | nil => rfl
  | cons u rest ih =>
      rw [List.map_cons, List.zip_cons_cons, List.filter_cons]
      by_cases hf : f u = true
      · simp only [hf, Bool.not_true, Bool.false_eq_true, if_false, combineBatch, if_true, ih,
          List.map_cons]
      · rw [Bool.not_eq_true] at hf
        simp only [hf, Bool.not_false, if_true, List.map_cons, combineBatch,
          Bool.false_eq_true, if_false, ih]

/-- C8: `get_online_status_batch` returns exactly one record per input
id, in input order — online ids report `(true, none)` and offline ids
report `(false, stored last_seen)` — with the existence checks issued as
one pipelined round trip over the input and the last_seen fetches as a
second pipelined round trip over exactly the offline subset. -/
theorem C8_batch_presence (st : RedisState) (user_ids : List Uuid) :
    (get_online_status_batch st user_ids).results =
      user_ids.map (fun u =>
        if st.presence u then { user_id := u, is_online := true, last_seen := none }
        else { user_id := u, is_online := false, last_seen := st.lastSeen u }) ∧
    (get_online_status_batch st user_ids).existsPipe = user_ids ∧
    (get_online_status_batch st user_ids).lastSeenPipe =
      user_ids.filter (fun u => !st.presence u) := by
  unfold get_online_status_batch
  by_cases he : user_ids.isEmpty
  · rw [List.isEmpty_iff] at he
    subst he
    exact ⟨rfl, rfl, rfl⟩
  · simp only [he, Bool.false_eq_true, if_false]
    refine ⟨?_, by trivial, ?_⟩
    · exact combineBatch_eq st.presence st.lastSeen user_ids
    · exact offline_ids_eq st.presence user_ids

end AppChat
